import Mathlib

/-!
Verification of the BERT pretraining data pipeline and training loop
(`pretrain/bookcorpus.py` and `train.py`) against its specification.

The Python code is shallowly embedded: Python list slicing (including
negative bounds) is modelled by `pyTake`, fallible operations return
`Except String`, and the stateful training loop pieces are modelled as
explicit state-passing functions.
-/

namespace BertFromScratch

/-- Python slice `l[:n]` for an integer bound `n`: for `n ≥ 0` it takes the
first `n` elements (clamped at the length); for `n < 0` it takes
`max 0 (len + n)` elements, i.e. drops the last `-n` elements. -/
def pyTake (n : Int) (l : List α) : List α :=
  if 0 ≤ n then l.take n.toNat else l.take (l.length - (-n).toNat)

/-- The value of `token_ids` in `BookCorpusForBERT._to_bert_input` before
the padding line:
`([cls_id] + prev_token_ids[:max_len-3] + [sep_id] + next_token_ids)[:max_len-1] + [sep_id]`. -/
def bertBase (c s : Nat) (maxLen : Nat) (prev nxt : List Nat) : List Nat :=
  pyTake ((maxLen : Int) - 1) ([c] ++ pyTake ((maxLen : Int) - 3) prev ++ [s] ++ nxt) ++ [s]

/-- Embedding of `BookCorpusForBERT._to_bert_input`: `bertBase`, then
`token_ids += [pad_id] * (max_len - len(token_ids))`.  A negative
replication count in Python yields the empty list, hence `Int.toNat`. -/
def toBertInput (c s p : Nat) (maxLen : Nat) (prev nxt : List Nat) : List Nat :=
  bertBase c s maxLen prev nxt ++
    List.replicate ((maxLen : Int) - (bertBase c s maxLen prev nxt).length).toNat p

/-- Ascending list of the positions of `s` in `l`, starting the position
count at `i`.  This is `(token_ids == sep_id).nonzero()` of
`_token_ids_to_segment_ids`, which reports the matching indices in
ascending order. -/
def sepPositionsAux (s : Nat) : List Nat → Nat → List Nat
  | [], _ => []
  | x :: xs, i => if x = s then i :: sepPositionsAux s xs (i + 1) else sepPositionsAux s xs (i + 1)

/-- All positions of the boundary token `s` in `l`, ascending. -/
def sepPositions (s : Nat) (l : List Nat) : List Nat :=
  sepPositionsAux s l 0

/-- Embedding of `BookCorpusForBERT._token_ids_to_segment_ids`: start from
all zeros; if the boundary token occurs exactly twice, at positions
`a < b`, assign 1 on the slice `[a+1 : b+1]`, i.e. at the positions `i`
with `a + 1 ≤ i ≤ b`.  Any other occurrence count leaves all zeros. -/
def deriveSegmentIds (s : Nat) (l : List Nat) : List Nat :=
  match sepPositions s l with
  | [a, b] => (List.range l.length).map fun i => if a + 1 ≤ i ∧ i ≤ b then 1 else 0
  | _ => List.replicate l.length 0

/-- Python list read `ls[i]` for a nonnegative index: `IndexError` when out
of range. -/
def pyListGet (ls : List α) (i : Nat) : Except String α :=
  match ls.get? i with
  | some x => Except.ok x
  | none => Except.error "IndexError: list index out of range"

/-- `random.choice(n)` applied to an `int` argument `n`, as in
`random.choice(len(self.ls_token_ids))`: `random.choice` starts by taking
`len` of its argument, and `len` of an `int` raises `TypeError`, so the
call raises unconditionally and no index is ever produced. -/
def randomChoiceOfInt (_n : Nat) : Except String Nat :=
  Except.error "TypeError: object of type int has no len"

/-- Embedding of `BookCorpusForBERT._sample_next_sentence`.  `coin` is the
outcome of `random.random() < 0.5`: when true the successor is the stored
sequence at `idx + 1` with label 1; when false the code computes
`next_idx = random.choice(len(self.ls_token_ids))` (which raises) and
would then read `self.ls_token_ids[next_idx]` with label 0. -/
def sampleNextSentence (ls : List (List Nat)) (idx : Nat) (coin : Bool) :
    Except String (List Nat × Nat) :=
  if coin then
    match pyListGet ls (idx + 1) with
    | Except.ok t => Except.ok (t, 1)
    | Except.error e => Except.error e
  else
    match randomChoiceOfInt ls.length with
    | Except.ok j =>
      match pyListGet ls j with
      | Except.ok t => Except.ok (t, 0)
      | Except.error e => Except.error e
    | Except.error e => Except.error e

/-- Embedding of `N_STEPS = (256 * 512 * 1_000_000) // (args.batch_size * config.MAX_LEN)`
from `train.py`: the fixed token budget integer-divided by the per-step
token count. -/
def nSteps (batchSize maxLen : Nat) : Nat :=
  (256 * 512 * 1000000) / (batchSize * maxLen)

/-- Embedding of the resume block of `train.py`: `init_step` is the step
recorded in the supplied checkpoint, or 0 when no checkpoint is supplied. -/
def resolveInitStep : Option Nat → Nat
  | some s => s
  | none => 0

/-- Embedding of `for step in range(init_step + 1, N_STEPS + 1)`: the list
of executed step numbers, `initStep + 1` up to `total` inclusive. -/
def trainLoopSteps (initStep total : Nat) : List Nat :=
  List.range' (initStep + 1) (total - initStep)

/-- The mutable loss-reporting state of the training loop in `train.py`:
`running_nsp_loss`, `running_mlm_loss` and `step_cnt` are initialized
before the loop; `running_loss` is a variable first assigned inside the
reporting block, hence `Option` with initial value `none`. -/
structure TrainAcc where
  running_nsp_loss : ℚ
  running_mlm_loss : ℚ
  step_cnt : Nat
  running_loss : Option ℚ

/-- State before the first step: `running_nsp_loss = 0`, `running_mlm_loss = 0`,
`step_cnt = 0`; `running_loss` not yet assigned. -/
def initTrainAcc : TrainAcc :=
  { running_nsp_loss := 0, running_mlm_loss := 0, step_cnt := 0, running_loss := none }

/-- One training step's accumulation: `running_nsp_loss += nsp_loss.item()`,
`running_mlm_loss += mlm_loss.item()`, `step_cnt += 1`. -/
def trainStep (st : TrainAcc) (nsp mlm : ℚ) : TrainAcc :=
  { st with
    running_nsp_loss := st.running_nsp_loss + nsp
    running_mlm_loss := st.running_mlm_loss + mlm
    step_cnt := st.step_cnt + 1 }

/-- The means printed by the reporting block:
`running_nsp_loss / step_cnt` and `running_mlm_loss / step_cnt`. -/
def reportMeans (st : TrainAcc) : ℚ × ℚ :=
  (st.running_nsp_loss / (st.step_cnt : ℚ), st.running_mlm_loss / (st.step_cnt : ℚ))

/-- The assignments executed right after printing the means:
`running_loss = 0` and `step_cnt = 0`.  Note that `running_nsp_loss` and
`running_mlm_loss` are left untouched by this block. -/
def reportReset (st : TrainAcc) : TrainAcc :=
  { st with running_loss := some 0, step_cnt := 0 }

/-- The filesystem as the list of existing file paths; `torch.save` creates
the target file (a path already present is overwritten in place). -/
def fileWrite (fs : List String) (p : String) : List String :=
  if p ∈ fs then fs else fs ++ [p]

/-- `Path.unlink`: remove the file from the filesystem. -/
def fileUnlink (fs : List String) (p : String) : List String :=
  fs.erase p

/-- Embedding of `save_checkpoint` from `train.py` as seen by the disk: on
success the checkpoint file exists at `p`; a write that fails mid-write
raises out of the loop and leaves no usable checkpoint file at `p`
(`Except.error` carries the usable-checkpoint state at the raise). -/
def saveCheckpoint (fs : List String) (p : String) (ok : Bool) : Except (List String) (List String) :=
  if ok then Except.ok (fileWrite fs p) else Except.error fs

/-- Embedding of the checkpoint rotation in `train.py`'s reporting block:
`save_checkpoint(...)`, then `if Path(prev_ckpt_path).exists(): prev_ckpt_path.unlink()`,
then `prev_ckpt_path = cur_ckpt_path`.  The deletion runs only after the
save has returned; a raising save propagates with the disk and the
previous-checkpoint pointer unchanged. -/
def ckptRotation (fs : List String) (prev cur : String) (ok : Bool) :
    Except (List String × String) (List String × String) :=
  match saveCheckpoint fs cur ok with
  | Except.error fs1 => Except.error (fs1, prev)
  | Except.ok fs1 => Except.ok (if prev ∈ fs1 then fileUnlink fs1 prev else fs1, cur)

/-! ## Lemmas about boundary-token positions -/

theorem sepPositionsAux_append (s : Nat) (xs ys : List Nat) (i : Nat) :
    sepPositionsAux s (xs ++ ys) i =
      sepPositionsAux s xs i ++ sepPositionsAux s ys (i + xs.length) := by
  induction xs generalizing i with
  | nil => simp [sepPositionsAux]
  | cons x xs ih =>
    have harith : i + 1 + xs.length = i + (xs.length + 1) := by omega
    simp only [List.cons_append, sepPositionsAux, List.length_cons, List.append_eq]
    split
    · rw [ih, harith, List.cons_append]
    · rw [ih, harith]

theorem sepPositionsAux_eq_nil (s : Nat) (xs : List Nat) (h : s ∉ xs) (i : Nat) :
    sepPositionsAux s xs i = [] := by
  induction xs generalizing i with
  | nil => rfl
  | cons x xs ih =>
    have hx : ¬x = s := fun hx => h (hx ▸ List.mem_cons_self x xs)
    simp only [sepPositionsAux, if_neg hx]
    exact ih (fun hm => h (List.mem_cons_of_mem x hm)) (i + 1)

theorem sepPositionsAux_singleton (s i : Nat) : sepPositionsAux s [s] i = [i] := by
  simp [sepPositionsAux]

theorem length_sepPositionsAux (s : Nat) (xs : List Nat) (i : Nat) :
    (sepPositionsAux s xs i).length = xs.count s := by
  induction xs generalizing i with
  | nil => rfl
  | cons x xs ih =>
    simp only [sepPositionsAux, List.count_cons]
    by_cases hx : x = s
    · subst hx
      simp [ih]
    · have : ¬(x == s) = true := by simpa using hx
      simp [hx, this, ih]

theorem mem_sepPositionsAux (s : Nat) (xs : List Nat) (i j : Nat) :
    j ∈ sepPositionsAux s xs i ↔ ∃ k, k < xs.length ∧ xs.getD k 0 = s ∧ j = i + k := by
  induction xs generalizing i with
  | nil => simp [sepPositionsAux]
  | cons x xs ih =>
    simp only [sepPositionsAux]
    constructor
    · intro hj
      by_cases hx : x = s
      · rw [if_pos hx] at hj
        rcases List.mem_cons.1 hj with h | h
        · exact ⟨0, by simp, by simpa using hx, by omega⟩
        · rcases (ih (i + 1)).1 h with ⟨k, hk, hget, hjk⟩
          exact ⟨k + 1, by simpa using hk, by simpa using hget, by omega⟩
      · rw [if_neg hx] at hj
        rcases (ih (i + 1)).1 hj with ⟨k, hk, hget, hjk⟩
        exact ⟨k + 1, by simpa using hk, by simpa using hget, by omega⟩
    · rintro ⟨k, hk, hget, hjk⟩
      cases k with
      | zero =>
        have hx : x = s := by simpa using hget
        rw [if_pos hx]
        exact hjk ▸ List.mem_cons_self i _
      | succ k =>
        have hmem : j ∈ sepPositionsAux s xs (i + 1) :=
          (ih (i + 1)).2 ⟨k, by simpa using hk, by simpa using hget, by omega⟩
        by_cases hx : x = s
        · rw [if_pos hx]; exact List.mem_cons_of_mem i hmem
        · rwa [if_neg hx]

theorem le_of_mem_sepPositionsAux (s : Nat) (xs : List Nat) (i j : Nat)
    (h : j ∈ sepPositionsAux s xs i) : i ≤ j := by
  rcases (mem_sepPositionsAux s xs i j).1 h with ⟨k, _, _, hjk⟩
  omega

theorem sepPositionsAux_pairwise (s : Nat) (xs : List Nat) (i : Nat) :
    (sepPositionsAux s xs i).Pairwise (· < ·) := by
  induction xs generalizing i with
  | nil => exact List.Pairwise.nil
  | cons x xs ih =>
    simp only [sepPositionsAux]
    split
    · refine List.Pairwise.cons (fun j hj => ?_) (ih (i + 1))
      have := le_of_mem_sepPositionsAux s xs (i + 1) j hj
      omega
    · exact ih (i + 1)

theorem length_sepPositions (s : Nat) (l : List Nat) :
    (sepPositions s l).length = l.count s :=
  length_sepPositionsAux s l 0

theorem mem_sepPositions (s : Nat) (l : List Nat) (j : Nat) :
    j ∈ sepPositions s l ↔ j < l.length ∧ l.getD j 0 = s := by
  rw [sepPositions, mem_sepPositionsAux]
  constructor
  · rintro ⟨k, hk, hget, hjk⟩
    exact ⟨by omega, by rwa [show j = k from by omega]⟩
  · rintro ⟨hj, hget⟩
    exact ⟨j, hj, hget, by omega⟩

/-- When the boundary token occurs exactly twice, at positions `a < b`,
the position list is exactly `[a, b]`. -/
theorem sepPositions_eq_pair (s : Nat) (l : List Nat) (a b : Nat)
    (hab : a < b) (hb : b < l.length) (hga : l.getD a 0 = s) (hgb : l.getD b 0 = s)
    (hc : l.count s = 2) : sepPositions s l = [a, b] := by
  have hlen : (sepPositions s l).length = 2 := by rw [length_sepPositions, hc]
  have hpw : (sepPositions s l).Pairwise (· < ·) := sepPositionsAux_pairwise s l 0
  have hma : a ∈ sepPositions s l := (mem_sepPositions s l a).2 ⟨by omega, hga⟩
  have hmb : b ∈ sepPositions s l := (mem_sepPositions s l b).2 ⟨hb, hgb⟩
  rcases hsp : sepPositions s l with _ | ⟨x, _ | ⟨y, _ | ⟨z, rest⟩⟩⟩
  · rw [hsp] at hlen; simp at hlen
  · rw [hsp] at hlen; simp at hlen
  · rw [hsp] at hpw hma hmb
    have hxy : x < y := by
      have := List.pairwise_cons.1 hpw
      exact this.1 y (List.mem_cons_self y [])
    have hax : a = x ∨ a = y := by simpa using hma
    have hbx : b = x ∨ b = y := by simpa using hmb
    have : a = x ∧ b = y := by omega
    rw [this.1, this.2]
  · rw [hsp] at hlen; simp at hlen

/-! ## Lemmas about the assembled sequence -/

theorem toBertInput_length (c s p maxLen : Nat) (h : 1 ≤ maxLen) (prev nxt : List Nat) :
    (toBertInput c s p maxLen prev nxt).length = maxLen := by
  have h1 : (0 : Int) ≤ (maxLen : Int) - 1 := by omega
  have hb : (bertBase c s maxLen prev nxt).length ≤ maxLen := by
    unfold bertBase pyTake
    rw [if_pos h1]
    simp only [List.length_append, List.length_take, List.length_cons, List.length_nil,
      inf_eq_min]
    omega
  unfold toBertInput
  simp only [List.length_append, List.length_replicate]
  omega

/-- For `max_len ≥ 3` both slice bounds are nonnegative, and the first
boundary token survives the whole-sequence truncation: the pre-padding
sequence decomposes as `[CLS]`, the truncated first sentence, `[SEP]`, the
truncated second sentence, and the trailing `[SEP]`. -/
theorem bertBase_eq_of_three_le (c s maxLen : Nat) (prev nxt : List Nat) (hm : 3 ≤ maxLen) :
    bertBase c s maxLen prev nxt =
      [c] ++ prev.take (maxLen - 3) ++ [s] ++
        nxt.take (maxLen - 3 - min (maxLen - 3) prev.length) ++ [s] := by
  have h3 : (0 : Int) ≤ (maxLen : Int) - 3 := by omega
  have h1 : (0 : Int) ≤ (maxLen : Int) - 1 := by omega
  have e3 : ((maxLen : Int) - 3).toNat = maxLen - 3 := by omega
  have e1 : ((maxLen : Int) - 1).toNat = maxLen - 1 := by omega
  unfold bertBase pyTake
  rw [if_pos h3, if_pos h1, e3, e1]
  congr 1
  rw [List.take_append_eq_append_take,
    List.take_of_length_le (l := [c] ++ prev.take (maxLen - 3) ++ [s])
      (by
        simp only [List.length_append, List.length_take, List.length_cons, List.length_nil,
          inf_eq_min]
        omega)]
  congr 2
  simp only [List.length_append, List.length_take, List.length_cons, List.length_nil,
    inf_eq_min]
  omega

/-- Boundary-token positions of the pre-padding sequence when neither
sentence contains the boundary token and `[CLS]` differs from it. -/
theorem sepPositionsAux_bertBase (c s maxLen : Nat) (prev nxt : List Nat)
    (hm : 3 ≤ maxLen) (hc : c ≠ s) (hprev : s ∉ prev) (hnxt : s ∉ nxt) :
    sepPositionsAux s (bertBase c s maxLen prev nxt) 0 =
      [min (maxLen - 3) prev.length + 1,
       min (maxLen - 3) prev.length + 2 +
         min (maxLen - 3 - min (maxLen - 3) prev.length) nxt.length] := by
  have hsP : s ∉ prev.take (maxLen - 3) := fun h => hprev (List.mem_of_mem_take h)
  have hsNT : s ∉ nxt.take (maxLen - 3 - min (maxLen - 3) prev.length) := fun h =>
    hnxt (List.mem_of_mem_take h)
  have hcs : sepPositionsAux s [c] 0 = [] :=
    sepPositionsAux_eq_nil s [c] (fun h => hc (List.mem_singleton.1 h).symm) 0
  rw [bertBase_eq_of_three_le c s maxLen prev nxt hm]
  rw [sepPositionsAux_append, sepPositionsAux_append, sepPositionsAux_append,
    sepPositionsAux_append]
  rw [hcs, sepPositionsAux_eq_nil s _ hsP, sepPositionsAux_eq_nil s _ hsNT]
  simp only [sepPositionsAux_singleton, List.nil_append, List.append_nil,
    List.singleton_append, List.cons.injEq, List.length_append, List.length_cons,
    List.length_nil, List.length_take, inf_eq_min, and_true]
  omega

/-- Boundary-token positions of the full assembled sequence: the padding
block contributes none. -/
theorem sepPositions_toBertInput (c s p maxLen : Nat) (prev nxt : List Nat)
    (hm : 3 ≤ maxLen) (hc : c ≠ s) (hp : p ≠ s) (hprev : s ∉ prev) (hnxt : s ∉ nxt) :
    sepPositions s (toBertInput c s p maxLen prev nxt) =
      [min (maxLen - 3) prev.length + 1,
       min (maxLen - 3) prev.length + 2 +
         min (maxLen - 3 - min (maxLen - 3) prev.length) nxt.length] := by
  have hrep : ∀ k : Nat, s ∉ List.replicate k p := fun k h =>
    hp (List.eq_of_mem_replicate h).symm
  unfold toBertInput sepPositions
  rw [sepPositionsAux_append, sepPositionsAux_eq_nil s _ (hrep _), List.append_nil]
  exact sepPositionsAux_bertBase c s maxLen prev nxt hm hc hprev hnxt

/-! ## Lemmas about segment-id derivation -/

theorem getD_map_range (n : Nat) (f : Nat → Nat) (i : Nat) (h : i < n) :
    ((List.range n).map f).getD i 0 = f i := by
  have hlen : i < ((List.range n).map f).length := by simpa using h
  rw [List.getD_eq_getElem?_getD, List.getElem?_eq_getElem hlen]
  simp

theorem getD_replicate_zero (n i : Nat) : (List.replicate n (0 : Nat)).getD i 0 = 0 := by
  rw [List.getD_eq_getElem?_getD]
  rcases Nat.lt_or_ge i n with h | h
  · rw [List.getElem?_eq_getElem (by simpa using h)]
    simp
  · rw [List.getElem?_eq_none (by simpa using h)]
    rfl

theorem deriveSegmentIds_of_pair (s : Nat) (l : List Nat) (a b : Nat)
    (h : sepPositions s l = [a, b]) :
    deriveSegmentIds s l =
      (List.range l.length).map fun i => if a + 1 ≤ i ∧ i ≤ b then 1 else 0 := by
  simp [deriveSegmentIds, h]

theorem deriveSegmentIds_of_count_ne_two (s : Nat) (l : List Nat) (h : l.count s ≠ 2) :
    deriveSegmentIds s l = List.replicate l.length 0 := by
  have hlen : (sepPositions s l).length ≠ 2 := by rw [length_sepPositions]; exact h
  rcases hsp : sepPositions s l with _ | ⟨x, _ | ⟨y, _ | ⟨z, rest⟩⟩⟩
  · simp [deriveSegmentIds, hsp]
  · simp [deriveSegmentIds, hsp]
  · exact absurd (by rw [hsp]; rfl) hlen
  · simp [deriveSegmentIds, hsp]

theorem length_deriveSegmentIds (s : Nat) (l : List Nat) :
    (deriveSegmentIds s l).length = l.length := by
  rcases hsp : sepPositions s l with _ | ⟨x, _ | ⟨y, _ | ⟨z, rest⟩⟩⟩ <;>
    simp [deriveSegmentIds, hsp]

theorem deriveSegmentIds_mem_zero_one (s : Nat) (l : List Nat) :
    ∀ x ∈ deriveSegmentIds s l, x = 0 ∨ x = 1 := by
  intro x hx
  rcases hsp : sepPositions s l with _ | ⟨a, _ | ⟨b, _ | ⟨z, rest⟩⟩⟩ <;>
    rw [deriveSegmentIds, hsp] at hx
  · exact Or.inl (List.eq_of_mem_replicate hx)
  · exact Or.inl (List.eq_of_mem_replicate hx)
  · rcases List.mem_map.1 hx with ⟨i, _, hix⟩
    split at hix
    · exact Or.inr hix.symm
    · exact Or.inl hix.symm
  · exact Or.inl (List.eq_of_mem_replicate hx)

/-! ## Theorems -/

/-- C1 counterexample: on the example inputs ([CLS]=1, [SEP]=2, [PAD]=0,
`max_len = 8`, token ids [5,6] and [7,6], true-successor pairing) the
claimed pair of outputs does not hold: the derived segment ids are not
`[0,0,0,0,1,1,1,1]`. -/
theorem c1_example_segment_ids_counterexample :
    ¬(toBertInput 1 2 0 8 [5, 6] [7, 6] = [1, 5, 6, 2, 7, 6, 2, 0] ∧
      deriveSegmentIds 2 (toBertInput 1 2 0 8 [5, 6] [7, 6]) = [0, 0, 0, 0, 1, 1, 1, 1]) := by
  decide

/-- C1 (amended): assembling the two-paragraph example with token ids
[5,6] and [7,6], `max_len = 8`, [CLS]=1, [SEP]=2, [PAD]=0 and the
true-successor pairing yields token ids `[1,5,6,2,7,6,2,0]`, and deriving
segment ids from that sequence yields `[0,0,0,0,1,1,1,0]`: segment id 1
extends from just after the first boundary token through the second
boundary token inclusive, and the trailing padding keeps segment id 0. -/
theorem c1_example_assembly_amended :
    toBertInput 1 2 0 8 [5, 6] [7, 6] = [1, 5, 6, 2, 7, 6, 2, 0] ∧
    deriveSegmentIds 2 (toBertInput 1 2 0 8 [5, 6] [7, 6]) = [0, 0, 0, 0, 1, 1, 1, 0] := by
  decide

/-- C2: segment-id derivation returns a same-length sequence over {0,1};
with exactly two boundary positions `a < b` it marks exactly the positions
`a+1 .. b` inclusive with 1; any other boundary count (0, 1, more than 2)
yields all zeros. -/
theorem c2_derive_segment_ids_spec (s : Nat) (l : List Nat) :
    (deriveSegmentIds s l).length = l.length ∧
    (∀ x ∈ deriveSegmentIds s l, x = 0 ∨ x = 1) ∧
    (∀ a b : Nat, a < b → b < l.length → l.getD a 0 = s → l.getD b 0 = s →
      l.count s = 2 → ∀ i, i < l.length →
        (deriveSegmentIds s l).getD i 0 = if a + 1 ≤ i ∧ i ≤ b then 1 else 0) ∧
    (l.count s ≠ 2 → deriveSegmentIds s l = List.replicate l.length 0) := by
  refine ⟨length_deriveSegmentIds s l, deriveSegmentIds_mem_zero_one s l, ?_,
    deriveSegmentIds_of_count_ne_two s l⟩
  intro a b hab hb hga hgb hc i hi
  rw [deriveSegmentIds_of_pair s l a b (sepPositions_eq_pair s l a b hab hb hga hgb hc)]
  exact getD_map_range l.length _ i hi

/-- Witness for C2: on the example sequence `[1,5,6,2,7,6,2,0]` with
boundary id 2 (positions 3 and 6) position 4 is marked 1; on `[1,2,3]`
(one boundary occurrence) the result is all zeros. -/
theorem c2_derive_segment_ids_spec_witness :
    (deriveSegmentIds 2 [1, 5, 6, 2, 7, 6, 2, 0]).getD 4 0 = 1 ∧
    deriveSegmentIds 2 [1, 2, 3] = List.replicate 3 0 := by
  constructor
  · have h := (c2_derive_segment_ids_spec 2 [1, 5, 6, 2, 7, 6, 2, 0]).2.2.1 3 6 (by decide)
      (by decide) (by decide) (by decide) (by decide) 4 (by decide)
    rw [h]
    decide
  · exact (c2_derive_segment_ids_spec 2 [1, 2, 3]).2.2.2 (by decide)

/-- C3: for every pair of input token-id lists (both empty included) and
every positive `max_len`, the assembled sequence has exactly length
`max_len`. -/
theorem c3_assembled_length_eq_max_len (c s p maxLen : Nat) (h : 1 ≤ maxLen)
    (prev nxt : List Nat) :
    (toBertInput c s p maxLen prev nxt).length = maxLen :=
  toBertInput_length c s p maxLen h prev nxt

/-- Witness for C3 at `max_len = 8` with both inputs empty. -/
theorem c3_assembled_length_eq_max_len_witness :
    1 ≤ 8 ∧ (toBertInput 1 2 0 8 [] []).length = 8 :=
  ⟨by decide, c3_assembled_length_eq_max_len 1 2 0 8 (by decide) [] []⟩

/-- C4 (code bug): in the not-next branch the code evaluates
`random.choice(len(self.ls_token_ids))`; `random.choice` requires a
sequence, so applied to an `int` it raises `TypeError` and no (label 0,
random paragraph) pair is ever returned.  Evaluation at the failing input
(the two-paragraph corpus, paragraph index 0, the branch taken). -/
theorem c4_not_next_branch_raises :
    sampleNextSentence [[5, 6], [7, 6]] 0 false =
      Except.error "TypeError: object of type int has no len" := rfl

/-- C5: in the true-successor branch the sampler returns label 1 together
with the stored token sequence at index `idx + 1`, and raises an index
error when `idx` is the last paragraph index. -/
theorem c5_true_successor_branch (ls : List (List Nat)) (idx : Nat) :
    (∀ h : idx + 1 < ls.length,
      sampleNextSentence ls idx true = Except.ok (ls.get ⟨idx + 1, h⟩, 1)) ∧
    (ls ≠ [] → idx = ls.length - 1 →
      sampleNextSentence ls idx true =
        Except.error "IndexError: list index out of range") := by
  constructor
  · intro h
    simp [sampleNextSentence, pyListGet, List.getElem?_eq_getElem h]
  · intro hne hidx
    have hlen : 1 ≤ ls.length := by
      cases ls with
      | nil => exact absurd rfl hne
      | cons x xs => simp
    have hnone : ls[idx + 1]? = none := List.getElem?_eq_none (by omega)
    simp [sampleNextSentence, pyListGet, hnone]

/-- Witness for C5 on the two-paragraph corpus: index 0 yields the stored
successor with label 1; index 1 (the last index) raises. -/
theorem c5_true_successor_branch_witness :
    sampleNextSentence [[5, 6], [7, 6]] 0 true = Except.ok ([7, 6], 1) ∧
    sampleNextSentence [[5, 6], [7, 6]] 1 true =
      Except.error "IndexError: list index out of range" := by
  constructor
  · exact (c5_true_successor_branch [[5, 6], [7, 6]] 0).1 (by decide)
  · exact (c5_true_successor_branch [[5, 6], [7, 6]] 1).2 (by decide) (by decide)

/-- C6: a checkpoint write that fails mid-write propagates with the disk
state and the previous-checkpoint pointer unchanged (the unlink runs only
after a successful save); after a successful save from a state holding at
most the previous checkpoint file, exactly the new checkpoint file
exists. -/
theorem c6_checkpoint_rotation_safe (fs : List String) (prev cur : String) :
    ckptRotation fs prev cur false = Except.error (fs, prev) ∧
    (prev ≠ cur → fs = [] ∨ fs = [prev] →
      ckptRotation fs prev cur true = Except.ok ([cur], cur)) := by
  constructor
  · rfl
  · intro hne hfs
    rcases hfs with h | h <;> subst h <;>
      simp [ckptRotation, saveCheckpoint, fileWrite, fileUnlink, hne, Ne.symm hne]

/-- Witness for C6: rotating from `a.pth` to `b.pth`. -/
theorem c6_checkpoint_rotation_safe_witness :
    ckptRotation ["a.pth"] "a.pth" "b.pth" false = Except.error (["a.pth"], "a.pth") ∧
    ckptRotation ["a.pth"] "a.pth" "b.pth" true = Except.ok (["b.pth"], "b.pth") :=
  ⟨(c6_checkpoint_rotation_safe ["a.pth"] "a.pth" "b.pth").1,
    (c6_checkpoint_rotation_safe ["a.pth"] "a.pth" "b.pth").2 (by decide) (Or.inr rfl)⟩

/-- C7 (code bug): the reporting block resets `step_cnt` (and assigns the
otherwise-unused `running_loss`) but never resets `running_nsp_loss` or
`running_mlm_loss`; with per-step losses 1 in the first interval and 3 in
the second (one step each), the second report prints mean (1+3)/1 = 4
instead of the mean 3 of the steps since the previous report. -/
theorem c7_report_means_not_reset :
    reportMeans (trainStep initTrainAcc 1 1) = (1, 1) ∧
    reportMeans (trainStep (reportReset (trainStep initTrainAcc 1 1)) 3 3) = (4, 4) ∧
    reportMeans (trainStep (reportReset (trainStep initTrainAcc 1 1)) 3 3) ≠ (3, 3) := by
  refine ⟨?_, ?_, ?_⟩ <;>
    simp only [reportMeans, trainStep, reportReset, initTrainAcc, Prod.mk.injEq, ne_eq] <;>
    norm_num

/-- C8: starting from a checkpoint recorded at step `S` resolves
`init_step` to `S` and the first executed loop step is `S + 1`; with no
checkpoint, `init_step` is 0 and the first executed step is 1. -/
theorem c8_resume_first_step (S N : Nat) :
    resolveInitStep (some S) = S ∧ resolveInitStep none = 0 ∧
    (S < N → (trainLoopSteps (resolveInitStep (some S)) N).head? = some (S + 1)) ∧
    (1 ≤ N → (trainLoopSteps (resolveInitStep none) N).head? = some 1) := by
  refine ⟨rfl, rfl, ?_, ?_⟩
  · intro h
    obtain ⟨k, hk⟩ : ∃ k, N - S = k + 1 := ⟨N - S - 1, by omega⟩
    simp [trainLoopSteps, resolveInitStep, hk, List.range'_succ]
  · intro h
    obtain ⟨k, hk⟩ : ∃ k, N - 0 = k + 1 := ⟨N - 1, by omega⟩
    simp [trainLoopSteps, resolveInitStep, hk, List.range'_succ]

/-- Witness for C8 at `S = 5`, `N = 10`. -/
theorem c8_resume_first_step_witness :
    (trainLoopSteps (resolveInitStep (some 5)) 10).head? = some 6 ∧
    (trainLoopSteps (resolveInitStep none) 10).head? = some 1 :=
  ⟨(c8_resume_first_step 5 10).2.2.1 (by decide),
    (c8_resume_first_step 5 10).2.2.2 (by decide)⟩

/-- C9: `N_STEPS` is the fixed token budget `256 * 512 * 1_000_000`
integer-divided by `batch_size * max_len`; at batch size 256 and
`max_len = 512` it equals exactly 1,000,000. -/
theorem c9_total_steps_value : nSteps 256 512 = 1000000 := by
  norm_num [nSteps]

/-- C10: for `max_len ≥ 3`, distinct special tokens, and input sentences
free of the boundary id, the assembled sequence contains exactly two
boundary positions: the first at `min(|prev|, max_len-3) + 1` (it always
survives the whole-sequence truncation) and the trailing one at
`min(min(|prev|, max_len-3) + 2 + |next|, max_len-1)`; hence segment-id
derivation never degrades to the all-zero case. -/
theorem c10_two_sep_invariant (c s p maxLen : Nat) (prev nxt : List Nat)
    (hm : 3 ≤ maxLen) (hc : c ≠ s) (hp : p ≠ s) (hprev : s ∉ prev) (hnxt : s ∉ nxt) :
    (toBertInput c s p maxLen prev nxt).count s = 2 ∧
    sepPositions s (toBertInput c s p maxLen prev nxt) =
      [min prev.length (maxLen - 3) + 1,
       min (min prev.length (maxLen - 3) + 2 + nxt.length) (maxLen - 1)] ∧
    deriveSegmentIds s (toBertInput c s p maxLen prev nxt) ≠
      List.replicate maxLen 0 := by
  have hsep := sepPositions_toBertInput c s p maxLen prev nxt hm hc hp hprev hnxt
  have hlen : (toBertInput c s p maxLen prev nxt).length = maxLen :=
    toBertInput_length c s p maxLen (by omega) prev nxt
  refine ⟨?_, ?_, ?_⟩
  · rw [← length_sepPositions, hsep]
    rfl
  · rw [hsep]
    have h1 : min (maxLen - 3) prev.length + 1 = min prev.length (maxLen - 3) + 1 := by
      omega
    have h2 : min (maxLen - 3) prev.length + 2 +
        min (maxLen - 3 - min (maxLen - 3) prev.length) nxt.length =
        min (min prev.length (maxLen - 3) + 2 + nxt.length) (maxLen - 1) := by
      omega
    rw [h1, h2]
  · intro heq
    have hgd : (deriveSegmentIds s (toBertInput c s p maxLen prev nxt)).getD
        (min (maxLen - 3) prev.length + 2 +
          min (maxLen - 3 - min (maxLen - 3) prev.length) nxt.length) 0 = 1 := by
      rw [deriveSegmentIds_of_pair s _ _ _ hsep]
      rw [getD_map_range]
      · rw [if_pos ⟨by omega, Nat.le_refl _⟩]
      · rw [hlen]
        omega
    rw [heq, getD_replicate_zero] at hgd
    omega

/-- Witness for C10: `max_len = 8`, [CLS]=1, [SEP]=2, [PAD]=0, sentences
[5,6] and [7,6]. -/
theorem c10_two_sep_invariant_witness :
    (toBertInput 1 2 0 8 [5, 6] [7, 6]).count 2 = 2 ∧
    sepPositions 2 (toBertInput 1 2 0 8 [5, 6] [7, 6]) = [3, 6] ∧
    deriveSegmentIds 2 (toBertInput 1 2 0 8 [5, 6] [7, 6]) ≠ List.replicate 8 0 := by
  have h := c10_two_sep_invariant 1 2 0 8 [5, 6] [7, 6] (by decide) (by decide) (by decide)
    (by decide) (by decide)
  refine ⟨h.1, ?_, h.2.2⟩
  have h2 := h.2.1
  simpa using h2

end BertFromScratch
